import Mathlib

/-!
# Verification of the accessibility-scanner crawl-and-scan core

Shallow embedding of `main.go` of the accessibility-scanner-api repository.

Modelling conventions:
* Go `int` is modelled as `Int`; list lengths (Go `len`) are `Nat` cast to
  `Int` at every comparison site, mirroring the source comparisons.
* Go `float64` scores are modelled as `Rat`; the only operation the source
  performs on scores is the comparison `audit.Score < 1.0`.
* The external collaborators (HTTP transport, HTML parsing, URL resolution,
  the Lighthouse service) are modelled as oracle functions bundled in `World`;
  the code under verification consumes their outcomes exactly as the source
  does.
* `Nat`-valued fuel drives the crawl loop; `crawlAndScan ... fuel = some r`
  says the loop reached its natural exit (queue empty or limit hit) within
  `fuel` iterations, so `some` results are exactly the completed runs of the
  source loop.
* Ghost fields (`cancelled`, `iter`, `log`) record observations that the Go
  code makes but does not store; they never influence the computation of the
  non-ghost fields.
-/

/-- One normalized accessibility issue (Go struct `AccessibilityIssue`). -/
structure AccessibilityIssue where
  auditID : String
  title : String
  description : String
  impact : String
  selector : String
  snippet : String
  deriving DecidableEq, Repr

/-- Per-page audit outcome (Go struct `PageResult`).  `accessibilityScore`
models the `float64` field as a rational. -/
structure PageResult where
  url : String
  accessibilityScore : Rat
  issues : List AccessibilityIssue
  error : String
  deriving DecidableEq, Repr

/-- The located node of one audit detail item (Go `Details.Items[i].Node`). -/
structure LHNode where
  selector : String
  snippet : String
  deriving DecidableEq, Repr

/-- One audit detail item (Go `Details.Items[i]`). -/
structure LHItem where
  node : LHNode
  impact : String
  deriving DecidableEq, Repr

/-- Details of one audit entry (Go `Audits[k].Details`). -/
structure LHDetails where
  items : List LHItem
  deriving DecidableEq, Repr

/-- One audit entry of the Lighthouse response (Go `Audits[k]`); only the
fields the source reads are modelled. -/
structure LHAudit where
  title : String
  description : String
  score : Rat
  scoreDisplayMode : String
  details : LHDetails
  deriving DecidableEq, Repr

/-- Decoded Lighthouse response (Go struct `LighthouseResult`).
`accessibilityScore` is `Categories.Accessibility.Score`; `audits` models the
Go map `Audits` as an association list whose order stands for one possible
(unspecified) Go map iteration order. -/
structure LighthouseResult where
  accessibilityScore : Rat
  audits : List (String × LHAudit)
  deriving DecidableEq, Repr

/-- Outcome of one call of the Lighthouse collaborator, as observed by
`scanPageWithLighthouse`: a transport error from `client.Get`, a non-200
HTTP status (with response body), a JSON decoding failure, or a decoded
response.  The three failure constructors carry the collaborator-supplied
text interpolated into the source's error messages. -/
inductive LighthouseFetch where
  | transportError (msg : String)
  | httpError (status : Nat) (body : String)
  | decodeError (msg : String)
  | ok (lr : LighthouseResult)
  deriving DecidableEq, Repr

/-- `true` on the three non-`ok` outcomes of the Lighthouse call. -/
def LighthouseFetch.isFailure : LighthouseFetch → Bool
  | .ok _ => false
  | _ => true

/-- Issues contributed by one audit entry (the body of the
`for auditID, audit := range ...Audits` loop of `scanPageWithLighthouse`,
main.go lines 210-236): a binary-mode audit with score below 1 yields one
issue per detail item, followed by a single "unknown"-impact issue when the
item list is empty; every other audit yields nothing. -/
def issuesForAudit (auditID : String) (audit : LHAudit) : List AccessibilityIssue :=
  if audit.scoreDisplayMode = "binary" ∧ audit.score < 1 then
    audit.details.items.map (fun item =>
      { auditID := auditID, title := audit.title, description := audit.description,
        impact := item.impact, selector := item.node.selector, snippet := item.node.snippet })
    ++ (if audit.details.items.length = 0 then
        [{ auditID := auditID, title := audit.title, description := audit.description,
           impact := "unknown", selector := "", snippet := "" }]
      else [])
  else []

/-- The full issue list built by iterating the audits map in the given
order (main.go lines 210-236). -/
def buildIssues : List (String × LHAudit) → List AccessibilityIssue
  | [] => []
  | a :: rest => issuesForAudit a.1 a.2 ++ buildIssues rest

/-- `scanPageWithLighthouse` (main.go lines 180-239): calls the Lighthouse
collaborator for one URL and translates the outcome into a `PageResult`.
Failure outcomes produce the source's formatted error strings and leave the
zero values of score and issues in place; the `ok` outcome copies the
accessibility score and builds the issue list. -/
def scanPageWithLighthouse (lighthouse : String → LighthouseFetch) (pageURL : String) :
    PageResult :=
  match lighthouse pageURL with
  | .transportError msg =>
    { url := pageURL, accessibilityScore := 0, issues := [],
      error := "Failed to call Lighthouse API: " ++ msg }
  | .httpError status body =>
    { url := pageURL, accessibilityScore := 0, issues := [],
      error := "Lighthouse API error (status " ++ toString status ++ "): " ++ body }
  | .decodeError msg =>
    { url := pageURL, accessibilityScore := 0, issues := [],
      error := "Failed to decode Lighthouse response: " ++ msg }
  | .ok lr =>
    { url := pageURL, accessibilityScore := lr.accessibilityScore,
      issues := buildIssues lr.audits, error := "" }

/-- Decoded scan request (Go struct `ScanRequest`); a field absent from the
request JSON decodes to the zero value, so `0` stands for "absent". -/
structure ScanRequest where
  url : String
  maxPages : Int
  offset : Int
  limit : Int
  deriving DecidableEq, Repr

/-- API error response payload (Go struct `ErrorResponse`). -/
structure ErrorResponse where
  error : String
  code : Int
  message : String
  deriving DecidableEq, Repr

/-- The request-validation and defaulting prefix of `handleScan`
(main.go lines 443-473): URL presence and parse check, zero-to-default
replacement for `max_pages` and `limit`, then range validation.
`parseOK` is the `url.Parse` collaborator (`true` when parsing succeeds).
Returns the effective request handed to `NewAccessibilityScanner`. -/
def validateScan (parseOK : String → Bool) (req : ScanRequest) :
    Except ErrorResponse ScanRequest :=
  if req.url = "" then
    .error { error := "Missing URL", code := 400, message := "URL is required" }
  else if ¬ parseOK req.url then
    .error { error := "Invalid URL", code := 400, message := "URL must be valid" }
  else
    let req := if req.maxPages = 0 then { req with maxPages := 50 } else req
    let req := if req.limit = 0 then { req with limit := 5 } else req
    if req.maxPages < 1 ∨ 1000 < req.maxPages then
      .error { error := "Invalid max_pages", code := 400,
               message := "max_pages must be between 1 and 1000" }
    else if req.limit < 1 ∨ 100 < req.limit then
      .error { error := "Invalid limit", code := 400,
               message := "limit must be between 1 and 100" }
    else if req.offset < 0 then
      .error { error := "Invalid offset", code := 400,
               message := "offset cannot be negative" }
    else
      .ok req

/-- `true` when validation succeeded. -/
def Except.isOkB : Except ErrorResponse ScanRequest → Bool
  | .ok _ => true
  | .error _ => false

/-- External collaborators of the orchestrator.  `fetchLinks u` models the
HTTP fetch + HTML parse + per-anchor URL resolution of `extractLinks`
(main.go lines 243-299): `none` is any failure before the tree walk
(request creation, transport, status >= 400, URL parse, HTML parse), and
`some raws` gives, in document order, the normalized candidate link strings
(`cleanURL.String()`) of the anchors whose resolved host equals the base
host.  `lighthouse` is the Lighthouse collaborator of
`scanPageWithLighthouse`. -/
structure World where
  fetchLinks : String → Option (List String)
  lighthouse : String → LighthouseFetch

/-- The per-page link walk of `extractLinks` (main.go lines 300-322),
processing the normalized in-scope candidate links in document order: a
link already collected for this page is skipped (`isDuplicate`); otherwise
it is collected and appended to the discovery record unless already
discovered (`alreadyDiscovered`).  Arguments are the remaining candidates,
the per-page `links` accumulator and the discovery record. -/
def discWalk : List String → List String → List String → List String × List String
  | [], links, disc => (links, disc)
  | finalURL :: raws, links, disc =>
    if finalURL ∈ links then discWalk raws links disc
    else discWalk raws (links ++ [finalURL])
        (if finalURL ∈ disc then disc else disc ++ [finalURL])

/-- `extractLinks` (main.go lines 242-335) given the current discovery
record: on fetch/parse failure returns `none` (the Go `error` return) with
the record untouched; otherwise walks the in-scope normalized links in
document order, deduplicating per page and growing the discovery record.
Returns the per-page link list and the updated discovery record. -/
def extractLinks (world : World) (urlsDiscovered : List String) (pageURL : String) :
    Option (List String × List String) :=
  match world.fetchLinks pageURL with
  | none => none
  | some raws => some (discWalk raws [] urlsDiscovered)

/-- The offer loop of `crawlAndScan` (main.go lines 372-377 and 392-397):
each extracted link is appended to the queue, and marked visited, exactly
when it is not yet visited and the queue is shorter than `maxPages`. -/
def offerLinks (maxPages : Int) : List String → List String → List String →
    List String × List String
  | [], queue, visited => (queue, visited)
  | link :: links, queue, visited =>
    if link ∉ visited ∧ (queue.length : Int) < maxPages then
      offerLinks maxPages links (queue ++ [link]) (visited ++ [link])
    else
      offerLinks maxPages links queue visited

/-- The link-extraction attempt of one loop iteration: when `doIt` is
`true` the orchestrator calls `extractLinks`; a failed extraction
contributes no links and leaves the discovery record untouched (main.go
lines 369-379 and 389-399).  Returns the offered link list and the updated
discovery record. -/
def tryExtract (world : World) (doIt : Bool) (disc : List String) (pageURL : String) :
    List String × List String :=
  if doIt then
    match extractLinks world disc pageURL with
    | none => ([], disc)
    | some r => r
  else ([], disc)

/-- Windowing configuration of one run (Go struct `ScanConfig`). -/
structure ScanConfig where
  maxPages : Int
  offset : Int
  limit : Int
  deriving DecidableEq, Repr

/-- Ghost record of one dequeue step of the crawl loop: the dequeued URL,
its processing rank (`urlIndex` at dequeue), the queue length and discovery
record length right after the dequeue, whether an audit was invoked, and
whether `extractLinks` was called. -/
structure StepLog where
  url : String
  rank : Int
  queueLen : Nat
  discLen : Nat
  audited : Bool
  extracted : Bool
  deriving DecidableEq, Repr

/-- Mutable state of `crawlAndScan` (main.go lines 338-400): the work queue,
the visited set (Go `map[string]bool`, modelled as the list of keys set to
`true`), the discovery record, the `urlIndex` counter, the accumulated page
results and the in-loop `result.Status` string.  `cancelled`, `iter` and
`log` are ghost fields. -/
structure CrawlState where
  queue : List String
  visited : List String
  urlsDiscovered : List String
  urlIndex : Int
  pageResults : List PageResult
  status : String
  cancelled : Bool
  iter : Nat
  log : List StepLog
  deriving DecidableEq, Repr

/-- One iteration of the crawl loop body (main.go lines 356-399), entered
with the loop guard true.  The `select` observes the cancellation signal and
sets the status; its Go `break` leaves only the `select`, so the body then
proceeds to dequeue regardless.  A dequeued URL with rank below `offset` is
discovery-only: link extraction is attempted exactly when the post-dequeue
queue is shorter than `maxPages`.  Otherwise the URL is audited, its
`PageResult` appended, and link extraction is attempted exactly when the
audit reported no error and the post-dequeue queue is shorter than
`maxPages`.  Extracted links are then offered to the queue. -/
def crawlStep (cfg : ScanConfig) (world : World) (cancel : Nat → Bool)
    (st : CrawlState) : CrawlState :=
  let st1 := if cancel st.iter then
      { st with status := "cancelled", cancelled := true, iter := st.iter + 1 }
    else { st with iter := st.iter + 1 }
  match st1.queue with
  | [] => st1
  | currentURL :: rest =>
    if st1.urlIndex < cfg.offset then
      let extractNow : Bool := decide ((rest.length : Int) < cfg.maxPages)
      let ld := tryExtract world extractNow st1.urlsDiscovered currentURL
      let qv := offerLinks cfg.maxPages ld.1 rest st1.visited
      { st1 with
        queue := qv.1
        visited := qv.2
        urlsDiscovered := ld.2
        urlIndex := st1.urlIndex + 1
        log := st1.log ++ [{ url := currentURL, rank := st1.urlIndex,
                             queueLen := rest.length, discLen := st1.urlsDiscovered.length,
                             audited := false, extracted := extractNow }] }
    else
      let pr := scanPageWithLighthouse world.lighthouse currentURL
      let extractNow : Bool :=
        decide (pr.error = "" ∧ (rest.length : Int) < cfg.maxPages)
      let ld := tryExtract world extractNow st1.urlsDiscovered currentURL
      let qv := offerLinks cfg.maxPages ld.1 rest st1.visited
      { st1 with
        queue := qv.1
        visited := qv.2
        urlsDiscovered := ld.2
        urlIndex := st1.urlIndex + 1
        pageResults := st1.pageResults ++ [pr]
        log := st1.log ++ [{ url := currentURL, rank := st1.urlIndex,
                             queueLen := rest.length, discLen := st1.urlsDiscovered.length,
                             audited := true, extracted := extractNow }] }

/-- The loop guard of main.go line 356:
`len(queue) > 0 && len(result.PageResults) < s.limit`. -/
def crawlGuard (cfg : ScanConfig) (st : CrawlState) : Prop :=
  0 < st.queue.length ∧ (st.pageResults.length : Int) < cfg.limit

instance (cfg : ScanConfig) (st : CrawlState) : Decidable (crawlGuard cfg st) :=
  inferInstanceAs (Decidable (_ ∧ _))

/-- The crawl loop, with fuel: `some` exactly when the guard went false
within `fuel` iterations, i.e. the source loop terminated naturally. -/
def crawlLoop (cfg : ScanConfig) (world : World) (cancel : Nat → Bool) :
    Nat → CrawlState → Option CrawlState
  | 0, st => if crawlGuard cfg st then none else some st
  | Nat.succ fuel, st =>
    if crawlGuard cfg st then
      crawlLoop cfg world cancel fuel (crawlStep cfg world cancel st)
    else some st

/-- The aggregate report (Go struct `ScanResult`); `scanTime` is omitted
(wall clock).  `cancelled` and `log` are ghost fields copied from the final
crawl state. -/
structure ScanResult where
  baseURL : String
  totalPages : Nat
  pageResults : List PageResult
  urlsDiscovered : List String
  urlsVisited : List String
  scanConfig : ScanConfig
  status : String
  cancelled : Bool
  log : List StepLog
  deriving DecidableEq, Repr

/-- The seeded initial state of `crawlAndScan` (main.go lines 339-354): the
base URL is queued, marked visited and recorded as discovered at rank 0,
and `result.Status` starts as "completed". -/
def initState (baseURL : String) : CrawlState :=
  { queue := [baseURL], visited := [baseURL], urlsDiscovered := [baseURL],
    urlIndex := 0, pageResults := [], status := "completed",
    cancelled := false, iter := 0, log := [] }

/-- Report assembly after the loop (main.go lines 402-424): `urls_visited`
is derived from the page results, and the status is finalized by the
epilogue of lines 409-422 (a non-cancelled run with no page results becomes
"failed", a non-cancelled run with some erroneous page result becomes
"partial"). -/
def assembleReport (cfg : ScanConfig) (baseURL : String) (st : CrawlState) :
    ScanResult :=
  let status1 :=
    if st.status ≠ "cancelled" ∧ st.pageResults.length = 0 then "failed"
    else if st.status ≠ "cancelled" ∧ st.pageResults.any (fun p => p.error != "") then
      "partial"
    else st.status
  { baseURL := baseURL, totalPages := st.pageResults.length,
    pageResults := st.pageResults, urlsDiscovered := st.urlsDiscovered,
    urlsVisited := st.pageResults.map (fun p => p.url),
    scanConfig := cfg, status := status1,
    cancelled := st.cancelled, log := st.log }

/-- `crawlAndScan` (main.go lines 338-425): seed, run the loop, assemble. -/
def crawlAndScan (cfg : ScanConfig) (baseURL : String) (world : World)
    (cancel : Nat → Bool) (fuel : Nat) : Option ScanResult :=
  (crawlLoop cfg world cancel fuel (initState baseURL)).map
    (assembleReport cfg baseURL)

/-- Status Classifier written from the spec's words (spec section 4.5), for
comparison with the status computed by `crawlAndScan`: `cancelled` wins,
then `failed` on an empty outcome list, then `partial` on any error, else
`completed`. -/
def statusClassifierSpec (cancelled : Bool) (pages : List PageResult) : String :=
  if cancelled then "cancelled"
  else if pages.length = 0 then "failed"
  else if pages.any (fun p => p.error != "") then "partial"
  else "completed"

/-! ## Concrete collaborators and runs used as counterexamples and witnesses -/

/-- Lighthouse collaborator that always succeeds with score 1 and no audit
entries. -/
def lighthouseOkTrivial : String → LighthouseFetch :=
  fun _ => .ok { accessibilityScore := 1, audits := [] }

/-- A cancellation signal that never fires. -/
def noCancel : Nat → Bool := fun _ => false

/-- A cancellation signal that has already fired when the run starts
(e.g. an already-expired request deadline). -/
def cancelAlways : Nat → Bool := fun _ => true

/-- Site where page "a" links to "b" and "c" and no other page links
anywhere; all audits succeed. -/
def worldAtoBC : World :=
  { fetchLinks := fun u => if u = "a" then some ["b", "c"] else some []
    lighthouse := lighthouseOkTrivial }

/-- Site where "a" links to "p", "q", "y"; "p" links to "x", "y"; "q" links
to "y"; other pages link nowhere; all audits succeed. -/
def worldDiamond : World :=
  { fetchLinks := fun u =>
      if u = "a" then some ["p", "q", "y"]
      else if u = "p" then some ["x", "y"]
      else if u = "q" then some ["y"]
      else some []
    lighthouse := lighthouseOkTrivial }

/-- Site where "a" links only to "b" and no other page links anywhere; all
audits succeed. -/
def worldAtoB : World :=
  { fetchLinks := fun u => if u = "a" then some ["b"] else some []
    lighthouse := lighthouseOkTrivial }

/-- Single-page site: no page links anywhere; all audits succeed. -/
def worldSingle : World :=
  { fetchLinks := fun _ => some []
    lighthouse := lighthouseOkTrivial }

/-- The report of the run of `worldSingle` from seed "a" with
`max_pages = 50`, `offset = 0`, `limit = 5` and no cancellation. -/
def reportSingle : ScanResult :=
  { baseURL := "a"
    totalPages := 1
    pageResults := [{ url := "a", accessibilityScore := 1, issues := [], error := "" }]
    urlsDiscovered := ["a"]
    urlsVisited := ["a"]
    scanConfig := { maxPages := 50, offset := 0, limit := 5 }
    status := "completed"
    cancelled := false
    log := [{ url := "a", rank := 0, queueLen := 0, discLen := 1,
              audited := true, extracted := true }] }

/-- The single (discovery-only) log entry of the `reportSingleSkip` run. -/
def stepSkipA : StepLog :=
  { url := "a", rank := 0, queueLen := 0, discLen := 1,
    audited := false, extracted := true }

/-- The report of the run of `worldSingle` from seed "a" with
`max_pages = 50`, `offset = 1`, `limit = 5` and no cancellation: the single
page is discovery-only, so no page is audited. -/
def reportSingleSkip : ScanResult :=
  { baseURL := "a"
    totalPages := 0
    pageResults := []
    urlsDiscovered := ["a"]
    urlsVisited := []
    scanConfig := { maxPages := 50, offset := 1, limit := 5 }
    status := "failed"
    cancelled := false
    log := [stepSkipA] }

/-- A binary-mode audit entry with failing score and no located nodes. -/
def auditNoItems : LHAudit :=
  { title := "Image elements have alt attributes", description := "desc",
    score := 0, scoreDisplayMode := "binary", details := { items := [] } }

/-- A Lighthouse collaborator that always fails at the transport layer. -/
def lighthouseDown : String → LighthouseFetch :=
  fun _ => .transportError "connection refused"

/-- A `url.Parse` collaborator that accepts every string. -/
def parseAll : String → Bool := fun _ => true

/-- A request that supplies `max_pages = 0` and `limit = 0` (equivalently,
omits both fields). -/
def reqZeros : ScanRequest :=
  { url := "https://example.com", maxPages := 0, offset := 0, limit := 0 }

/-! ## Helper lemmas about the collaboration boundary functions -/

theorem scanPage_url (lighthouse : String → LighthouseFetch) (pageURL : String) :
    (scanPageWithLighthouse lighthouse pageURL).url = pageURL := by
  unfold scanPageWithLighthouse
  cases lighthouse pageURL <;> rfl

theorem discWalk_spec : ∀ (raws links disc : List String),
    (∀ x ∈ links, x ∈ disc) →
    ∃ extra, (discWalk raws links disc).2 = disc ++ extra ∧
      ∀ x ∈ (discWalk raws links disc).1, x ∈ (discWalk raws links disc).2
  | [], links, disc, h => ⟨[], by simp [discWalk], by simpa [discWalk] using h⟩
  | raw :: raws, links, disc, h => by
    unfold discWalk
    by_cases hl : raw ∈ links
    · simp only [hl, if_true]
      exact discWalk_spec raws links disc h
    · simp only [hl, if_false]
      by_cases hd : raw ∈ disc
      · simp only [hd, if_true]
        refine discWalk_spec raws (links ++ [raw]) disc ?_
        intro x hx
        rcases List.mem_append.1 hx with h1 | h1
        · exact h x h1
        · rw [List.mem_singleton.1 h1]; exact hd
      · simp only [hd, if_false]
        obtain ⟨extra, he, hm⟩ := discWalk_spec raws (links ++ [raw]) (disc ++ [raw])
          (by
            intro x hx
            rcases List.mem_append.1 hx with h1 | h1
            · exact List.mem_append.2 (Or.inl (h x h1))
            · exact List.mem_append.2 (Or.inr h1))
        refine ⟨[raw] ++ extra, ?_, hm⟩
        rw [he, List.append_assoc]

theorem tryExtract_spec (world : World) (doIt : Bool) (disc : List String) (u : String) :
    ∃ extra, (tryExtract world doIt disc u).2 = disc ++ extra ∧
      ∀ x ∈ (tryExtract world doIt disc u).1, x ∈ (tryExtract world doIt disc u).2 := by
  cases doIt with
  | false => exact ⟨[], by simp [tryExtract], by simp [tryExtract]⟩
  | true =>
    unfold tryExtract extractLinks
    cases world.fetchLinks u with
    | none => exact ⟨[], by simp, by simp⟩
    | some raws =>
      simpa using discWalk_spec raws [] disc (by simp)

theorem offerLinks_exists (maxPages : Int) :
    ∀ (links queue visited : List String),
      ∃ ns, offerLinks maxPages links queue visited = (queue ++ ns, visited ++ ns) ∧
        ns.Nodup ∧ (∀ x ∈ ns, x ∉ visited) ∧ (∀ x ∈ ns, x ∈ links)
  | [], q, v => ⟨[], by simp [offerLinks], List.nodup_nil, by simp, by simp⟩
  | l :: ls, q, v => by
    unfold offerLinks
    by_cases hc : l ∉ v ∧ ((q.length : Int) < maxPages)
    · rw [if_pos hc]
      obtain ⟨ns, he, hnd, hfr, hm⟩ := offerLinks_exists maxPages ls (q ++ [l]) (v ++ [l])
      refine ⟨l :: ns, ?_, ?_, ?_, ?_⟩
      · rw [he, List.append_assoc, List.append_assoc, List.singleton_append]
      · refine List.nodup_cons.2 ⟨fun hln => ?_, hnd⟩
        exact hfr l hln (List.mem_append.2 (Or.inr (List.mem_singleton.2 rfl)))
      · intro x hx
        rcases List.mem_cons.1 hx with rfl | hx
        · exact hc.1
        · intro hxv
          exact hfr x hx (List.mem_append.2 (Or.inl hxv))
      · intro x hx
        rcases List.mem_cons.1 hx with rfl | hx
        · exact List.mem_cons_self _ _
        · exact List.mem_cons_of_mem _ (hm x hx)
    · rw [if_neg hc]
      obtain ⟨ns, he, hnd, hfr, hm⟩ := offerLinks_exists maxPages ls q v
      exact ⟨ns, he, hnd, hfr, fun x hx => List.mem_cons_of_mem _ (hm x hx)⟩

/-- Complete description of one loop-body iteration: the queue loses its
head and gains a block `ns` of fresh (never-visited) links, the visited set
gains exactly `ns`, the discovery record grows by some suffix `extra`
containing every offered link, at most one `PageResult` is appended, and
exactly one ghost log entry is appended, whose fields record the dequeued
URL, its rank, the post-dequeue queue length, the pre-step discovery count,
and the audit/extraction decisions of this iteration. -/
theorem crawlStep_view (cfg : ScanConfig) (world : World) (cancel : Nat → Bool)
    (st : CrawlState) (currentURL : String) (rest : List String)
    (hq : st.queue = currentURL :: rest) :
    ∃ (ns extra : List String) (pro : List PageResult) (e : StepLog),
      crawlStep cfg world cancel st =
        { queue := rest ++ ns
          visited := st.visited ++ ns
          urlsDiscovered := st.urlsDiscovered ++ extra
          urlIndex := st.urlIndex + 1
          pageResults := st.pageResults ++ pro
          status := if cancel st.iter then "cancelled" else st.status
          cancelled := cancel st.iter || st.cancelled
          iter := st.iter + 1
          log := st.log ++ [e] } ∧
      ns.Nodup ∧ (∀ x ∈ ns, x ∉ st.visited) ∧
      (∀ x ∈ ns, x ∈ st.urlsDiscovered ++ extra) ∧
      e.url = currentURL ∧ e.rank = st.urlIndex ∧
      e.queueLen = rest.length ∧ e.discLen = st.urlsDiscovered.length ∧
      e.audited = decide (cfg.offset ≤ st.urlIndex) ∧
      (e.audited = false → pro = [] ∧
        e.extracted = decide ((rest.length : Int) < cfg.maxPages)) ∧
      (e.audited = true →
        pro = [scanPageWithLighthouse world.lighthouse currentURL]) := by
  by_cases ho : st.urlIndex < cfg.offset
  · obtain ⟨extraT, heT, hmT⟩ := tryExtract_spec world
      (decide ((rest.length : Int) < cfg.maxPages)) st.urlsDiscovered currentURL
    obtain ⟨ns, he, hnd, hfr, hm⟩ := offerLinks_exists cfg.maxPages
      (tryExtract world (decide ((rest.length : Int) < cfg.maxPages))
        st.urlsDiscovered currentURL).1 rest st.visited
    refine ⟨ns, extraT, [],
      { url := currentURL, rank := st.urlIndex, queueLen := rest.length,
        discLen := st.urlsDiscovered.length, audited := false,
        extracted := decide ((rest.length : Int) < cfg.maxPages) },
      ?_, hnd, hfr, ?_, rfl, rfl, rfl, rfl, ?_, ?_, ?_⟩
    · cases hcan : cancel st.iter <;>
        simp only [crawlStep, hcan, Bool.false_eq_true, if_false, if_true, hq,
          if_pos ho, he, heT] <;>
        simp [he, heT]
    · intro x hx
      rw [← heT]
      exact hmT x (hm x hx)
    · exact (decide_eq_false (Int.not_le.2 ho)).symm
    · exact fun _ => ⟨rfl, rfl⟩
    · intro hab
      simp at hab
  · obtain ⟨extraT, heT, hmT⟩ := tryExtract_spec world
      (decide ((scanPageWithLighthouse world.lighthouse currentURL).error = "" ∧
        (rest.length : Int) < cfg.maxPages)) st.urlsDiscovered currentURL
    obtain ⟨ns, he, hnd, hfr, hm⟩ := offerLinks_exists cfg.maxPages
      (tryExtract world
        (decide ((scanPageWithLighthouse world.lighthouse currentURL).error = "" ∧
          (rest.length : Int) < cfg.maxPages))
        st.urlsDiscovered currentURL).1 rest st.visited
    refine ⟨ns, extraT, [scanPageWithLighthouse world.lighthouse currentURL],
      { url := currentURL, rank := st.urlIndex, queueLen := rest.length,
        discLen := st.urlsDiscovered.length, audited := true,
        extracted := decide ((scanPageWithLighthouse world.lighthouse currentURL).error = "" ∧
          (rest.length : Int) < cfg.maxPages) },
      ?_, hnd, hfr, ?_, rfl, rfl, rfl, rfl, ?_, ?_, ?_⟩
    · cases hcan : cancel st.iter <;>
        simp only [crawlStep, hcan, Bool.false_eq_true, if_false, if_true, hq,
          if_neg ho, he, heT] <;>
        simp [he, heT]
    · intro x hx
      rw [← heT]
      exact hmT x (hm x hx)
    · exact (decide_eq_true (Int.not_lt.1 ho)).symm
    · intro hab
      simp at hab
    · exact fun _ => rfl

/-! ## Loop invariant machinery -/

theorem crawlLoop_inv (cfg : ScanConfig) (world : World) (cancel : Nat → Bool)
    (P : CrawlState → Prop)
    (hstep : ∀ st, crawlGuard cfg st → P st → P (crawlStep cfg world cancel st)) :
    ∀ (fuel : Nat) (st st' : CrawlState),
      P st → crawlLoop cfg world cancel fuel st = some st' → P st'
  | 0, st, st', hP, h => by
    by_cases hg : crawlGuard cfg st
    · unfold crawlLoop at h
      rw [if_pos hg] at h
      exact Option.noConfusion h
    · unfold crawlLoop at h
      rw [if_neg hg] at h
      cases h
      exact hP
  | Nat.succ fuel, st, st', hP, h => by
    by_cases hg : crawlGuard cfg st
    · unfold crawlLoop at h
      rw [if_pos hg] at h
      exact crawlLoop_inv cfg world cancel P hstep fuel _ st' (hstep st hg hP) h
    · unfold crawlLoop at h
      rw [if_neg hg] at h
      cases h
      exact hP

theorem crawlAndScan_elim {cfg : ScanConfig} {baseURL : String} {world : World}
    {cancel : Nat → Bool} {fuel : Nat} {r : ScanResult}
    (h : crawlAndScan cfg baseURL world cancel fuel = some r) :
    ∃ st, crawlLoop cfg world cancel fuel (initState baseURL) = some st ∧
      r = assembleReport cfg baseURL st := by
  unfold crawlAndScan at h
  rcases Option.map_eq_some'.1 h with ⟨st, h1, h2⟩
  exact ⟨st, h1, h2.symm⟩

theorem assembleReport_pageResults (cfg : ScanConfig) (baseURL : String)
    (st : CrawlState) : (assembleReport cfg baseURL st).pageResults = st.pageResults :=
  rfl

theorem assembleReport_urlsVisited (cfg : ScanConfig) (baseURL : String)
    (st : CrawlState) :
    (assembleReport cfg baseURL st).urlsVisited = st.pageResults.map (fun p => p.url) :=
  rfl

theorem assembleReport_urlsDiscovered (cfg : ScanConfig) (baseURL : String)
    (st : CrawlState) :
    (assembleReport cfg baseURL st).urlsDiscovered = st.urlsDiscovered :=
  rfl

theorem assembleReport_log (cfg : ScanConfig) (baseURL : String)
    (st : CrawlState) : (assembleReport cfg baseURL st).log = st.log :=
  rfl

theorem assembleReport_cancelled (cfg : ScanConfig) (baseURL : String)
    (st : CrawlState) : (assembleReport cfg baseURL st).cancelled = st.cancelled :=
  rfl

theorem assembleReport_status (cfg : ScanConfig) (baseURL : String)
    (st : CrawlState) :
    (assembleReport cfg baseURL st).status =
      if st.status ≠ "cancelled" ∧ st.pageResults.length = 0 then "failed"
      else if st.status ≠ "cancelled" ∧ st.pageResults.any (fun p => p.error != "") then
        "partial"
      else st.status :=
  rfl

/-! ## Claim theorems -/

/-- C3 (amended): in every completed run, every URL of `urls_visited` (the
URLs of the produced PageOutcomes, in processing order) appears in
`urls_discovered`; the relative order need not be preserved (see the
counterexample to the original claim). -/
theorem c3_visited_in_discovered (cfg : ScanConfig) (baseURL : String)
    (world : World) (cancel : Nat → Bool) (fuel : Nat) (r : ScanResult)
    (h : crawlAndScan cfg baseURL world cancel fuel = some r) :
    ∀ u ∈ r.urlsVisited, u ∈ r.urlsDiscovered := by
  obtain ⟨st, hloop, hrep⟩ := crawlAndScan_elim h
  have hinv : (∀ u ∈ st.queue, u ∈ st.urlsDiscovered) ∧
      (∀ p ∈ st.pageResults, p.url ∈ st.urlsDiscovered) := by
    refine crawlLoop_inv cfg world cancel
      (fun s => (∀ u ∈ s.queue, u ∈ s.urlsDiscovered) ∧
        (∀ p ∈ s.pageResults, p.url ∈ s.urlsDiscovered))
      ?_ fuel (initState baseURL) st ?_ hloop
    · intro s hg hP
      obtain ⟨c, rest, hq⟩ := List.exists_cons_of_ne_nil (List.ne_nil_of_length_pos hg.1)
      obtain ⟨ns, extra, pro, e, heq, hnd, hfr, hnsd, heu, her, heqn, hedl, head,
        hskip, haud⟩ := crawlStep_view cfg world cancel s c rest hq
      rw [heq]
      constructor
      · intro u hu
        rcases List.mem_append.1 hu with hu | hu
        · refine List.mem_append.2 (Or.inl (hP.1 u ?_))
          rw [hq]
          exact List.mem_cons_of_mem c hu
        · exact hnsd u hu
      · intro p hp
        rcases List.mem_append.1 hp with hp | hp
        · exact List.mem_append.2 (Or.inl (hP.2 p hp))
        · cases hA : e.audited with
          | false =>
            rw [(hskip hA).1] at hp
            cases hp
          | true =>
            rw [haud hA] at hp
            rw [List.mem_singleton.1 hp, scanPage_url]
            refine List.mem_append.2 (Or.inl (hP.1 c ?_))
            rw [hq]
            exact List.mem_cons_self c rest
    · constructor
      · intro u hu
        simp only [initState, List.mem_singleton] at hu
        simp [initState, hu]
      · intro p hp
        simp [initState] at hp
  subst hrep
  rw [assembleReport_urlsVisited, assembleReport_urlsDiscovered]
  intro u hu
  rcases List.mem_map.1 hu with ⟨p, hp, rfl⟩
  exact hinv.2 p hp

/-- C3 (counterexample to the original claim): on `worldDiamond` with
`max_pages = 2`, `offset = 0`, `limit = 5`, the run audits the pages in
order a, p, q, x, y while the discovery record lists them in order
a, p, q, y, x ("y" is discovered on page "a" but only enqueued later,
because the queue cap rejects its offer twice): `urls_visited` is not a
subsequence of `urls_discovered`. -/
theorem c3_counterexample :
    (crawlAndScan { maxPages := 2, offset := 0, limit := 5 } "a" worldDiamond
        noCancel 8).map (fun r => (r.urlsVisited, r.urlsDiscovered)) =
      some (["a", "p", "q", "x", "y"], ["a", "p", "q", "y", "x"]) ∧
    ¬ List.Sublist ["a", "p", "q", "x", "y"] ["a", "p", "q", "y", "x"] := by
  constructor
  · decide
  · intro hsub
    have hlen : (["a", "p", "q", "x", "y"] : List String).length =
        (["a", "p", "q", "y", "x"] : List String).length := by decide
    have := hsub.eq_of_length hlen
    simp at this

/-- Shared helper: in every completed run, `urls_visited` equals the URLs of
the log entries that invoked an audit, in order. -/
theorem crawl_visited_eq_audited_log (cfg : ScanConfig) (baseURL : String)
    (world : World) (cancel : Nat → Bool) (fuel : Nat) (r : ScanResult)
    (h : crawlAndScan cfg baseURL world cancel fuel = some r) :
    r.urlsVisited = (r.log.filter (fun e => e.audited)).map (fun e => e.url) := by
  obtain ⟨st, hloop, hrep⟩ := crawlAndScan_elim h
  have hinv : st.pageResults.map (fun p => p.url) =
      (st.log.filter (fun e => e.audited)).map (fun e => e.url) := by
    refine crawlLoop_inv cfg world cancel
      (fun s => s.pageResults.map (fun p => p.url) =
        (s.log.filter (fun e => e.audited)).map (fun e => e.url))
      ?_ fuel (initState baseURL) st (by simp [initState]) hloop
    intro s hg hP
    obtain ⟨c, rest, hq⟩ := List.exists_cons_of_ne_nil (List.ne_nil_of_length_pos hg.1)
    obtain ⟨ns, extra, pro, e, heq, _, _, _, heu, _, _, _, _, hskip, haud⟩ :=
      crawlStep_view cfg world cancel s c rest hq
    rw [heq]
    show (s.pageResults ++ pro).map (fun p => p.url) =
      ((s.log ++ [e]).filter (fun e => e.audited)).map (fun e => e.url)
    rw [List.map_append, List.filter_append, List.map_append, hP]
    congr 1
    cases hA : e.audited with
    | false =>
      rw [(hskip hA).1]
      simp [hA]
    | true =>
      rw [haud hA]
      simp [hA, heu, scanPage_url]
  subst hrep
  rw [assembleReport_urlsVisited, assembleReport_log]
  exact hinv

/-- C10: in every completed run no URL is audited twice: the entries of
`urls_visited` (equivalently, the URLs of `page_results`) are pairwise
distinct, because a URL is enqueued only when not yet visited and is marked
visited at enqueue time (the seed being marked visited at start). -/
theorem c10_visited_nodup (cfg : ScanConfig) (baseURL : String)
    (world : World) (cancel : Nat → Bool) (fuel : Nat) (r : ScanResult)
    (h : crawlAndScan cfg baseURL world cancel fuel = some r) :
    r.urlsVisited.Nodup := by
  obtain ⟨st, hloop, hrep⟩ := crawlAndScan_elim h
  have hinv : ((st.log.map StepLog.url ++ st.queue).Nodup ∧
      (∀ u ∈ st.log.map StepLog.url, u ∈ st.visited) ∧
      (∀ u ∈ st.queue, u ∈ st.visited)) := by
    refine crawlLoop_inv cfg world cancel
      (fun s => (s.log.map StepLog.url ++ s.queue).Nodup ∧
        (∀ u ∈ s.log.map StepLog.url, u ∈ s.visited) ∧
        (∀ u ∈ s.queue, u ∈ s.visited))
      ?_ fuel (initState baseURL) st ?_ hloop
    · intro s hg hP
      obtain ⟨c, rest, hq⟩ := List.exists_cons_of_ne_nil (List.ne_nil_of_length_pos hg.1)
      obtain ⟨ns, extra, pro, e, heq, hnd, hfr, _, heu, _, _, _, _, _, _⟩ :=
        crawlStep_view cfg world cancel s c rest hq
      have hPnd := hP.1
      rw [hq] at hPnd
      have hvis : ∀ u ∈ s.log.map StepLog.url ++ (c :: rest), u ∈ s.visited := by
        intro u hu
        rcases List.mem_append.1 hu with hu | hu
        · exact hP.2.1 u hu
        · refine hP.2.2 u ?_
          rw [hq]
          exact hu
      rw [heq]
      refine ⟨?_, ?_, ?_⟩
      · show ((s.log ++ [e]).map StepLog.url ++ (rest ++ ns)).Nodup
        have hshape : (s.log ++ [e]).map StepLog.url ++ (rest ++ ns) =
            (s.log.map StepLog.url ++ (c :: rest)) ++ ns := by
          simp [heu, List.append_assoc]
        rw [hshape]
        refine List.Nodup.append hPnd hnd ?_
        intro x hx hxns
        exact hfr x hxns (hvis x hx)
      · show ∀ u ∈ (s.log ++ [e]).map StepLog.url, u ∈ s.visited ++ ns
        intro u hu
        rw [List.map_append] at hu
        rcases List.mem_append.1 hu with hu | hu
        · exact List.mem_append.2 (Or.inl (hP.2.1 u hu))
        · have hue : u = e.url := by simpa using hu
          rw [hue, heu]
          refine List.mem_append.2 (Or.inl (hP.2.2 c ?_))
          rw [hq]
          exact List.mem_cons_self c rest
      · show ∀ u ∈ rest ++ ns, u ∈ s.visited ++ ns
        intro u hu
        rcases List.mem_append.1 hu with hu | hu
        · refine List.mem_append.2 (Or.inl (hP.2.2 u ?_))
          rw [hq]
          exact List.mem_cons_of_mem c hu
        · exact List.mem_append.2 (Or.inr hu)
    · refine ⟨by simp [initState], by simp [initState], by simp [initState]⟩
  have hbridge := crawl_visited_eq_audited_log cfg baseURL world cancel fuel r h
  rw [hbridge]
  have hlognd : (st.log.map StepLog.url).Nodup := hinv.1.of_append_left
  have hrlog : r.log = st.log := by
    rw [hrep, assembleReport_log]
  rw [hrlog]
  have hsub : List.Sublist ((st.log.filter (fun e => e.audited)).map (fun e => e.url))
      (st.log.map StepLog.url) := List.Sublist.map _ (List.filter_sublist st.log)
  exact hlognd.sublist hsub

/-- C5: the terminal status of every completed run is the pure function of
(was a cancellation observed at a loop top, the produced PageOutcomes)
prescribed by the spec: cancelled, else failed on zero outcomes, else
partial on any error, else completed — checked in that order. -/
theorem c5_status_pure_function (cfg : ScanConfig) (baseURL : String)
    (world : World) (cancel : Nat → Bool) (fuel : Nat) (r : ScanResult)
    (h : crawlAndScan cfg baseURL world cancel fuel = some r) :
    r.status = statusClassifierSpec r.cancelled r.pageResults := by
  obtain ⟨st, hloop, hrep⟩ := crawlAndScan_elim h
  have hinv : st.status = (if st.cancelled then "cancelled" else "completed") := by
    refine crawlLoop_inv cfg world cancel
      (fun s => s.status = (if s.cancelled then "cancelled" else "completed"))
      ?_ fuel (initState baseURL) st (by simp [initState]) hloop
    intro s hg hP
    obtain ⟨c, rest, hq⟩ := List.exists_cons_of_ne_nil (List.ne_nil_of_length_pos hg.1)
    obtain ⟨ns, extra, pro, e, heq, _, _, _, _, _, _, _, _, _, _⟩ :=
      crawlStep_view cfg world cancel s c rest hq
    rw [heq]
    show (if cancel s.iter then "cancelled" else s.status) =
      (if (cancel s.iter || s.cancelled) then "cancelled" else "completed")
    cases hc : cancel s.iter
    · simpa [hc] using hP
    · simp [hc]
  subst hrep
  rw [assembleReport_status, assembleReport_cancelled, assembleReport_pageResults]
  cases hc : st.cancelled with
  | true =>
    have hst : st.status = "cancelled" := by rw [hinv, hc]; rfl
    simp [hst, statusClassifierSpec]
  | false =>
    have hst : st.status = "completed" := by rw [hinv, hc]; rfl
    have hne : ("completed" : String) ≠ "cancelled" := by decide
    simp [hst, statusClassifierSpec, hne]

/-- C6: in every completed run of a nonnegative `limit`, at most `limit`
PageOutcomes are produced, and every audited log entry has processing rank
at least `offset` (the produced PageOutcome URLs being exactly the audited
log entries, in order). -/
theorem c6_limit_and_offset (cfg : ScanConfig) (baseURL : String)
    (world : World) (cancel : Nat → Bool) (fuel : Nat) (r : ScanResult)
    (h : crawlAndScan cfg baseURL world cancel fuel = some r)
    (hl : 0 ≤ cfg.limit) :
    (r.pageResults.length : Int) ≤ cfg.limit ∧
    r.urlsVisited = (r.log.filter (fun e => e.audited)).map (fun e => e.url) ∧
    ∀ e ∈ r.log, e.audited = true → cfg.offset ≤ e.rank := by
  obtain ⟨st, hloop, hrep⟩ := crawlAndScan_elim h
  have hinv : ((st.pageResults.length : Int) ≤ cfg.limit ∧
      ∀ e ∈ st.log, e.audited = true → cfg.offset ≤ e.rank) := by
    refine crawlLoop_inv cfg world cancel
      (fun s => (s.pageResults.length : Int) ≤ cfg.limit ∧
        ∀ e ∈ s.log, e.audited = true → cfg.offset ≤ e.rank)
      ?_ fuel (initState baseURL) st ⟨by simpa [initState] using hl, by simp [initState]⟩
      hloop
    intro s hg hP
    obtain ⟨c, rest, hq⟩ := List.exists_cons_of_ne_nil (List.ne_nil_of_length_pos hg.1)
    obtain ⟨ns, extra, pro, e, heq, _, _, _, _, her, _, _, head, hskip, haud⟩ :=
      crawlStep_view cfg world cancel s c rest hq
    have hguard : (s.pageResults.length : Int) < cfg.limit := hg.2
    rw [heq]
    constructor
    · show ((s.pageResults ++ pro).length : Int) ≤ cfg.limit
      cases hA : e.audited with
      | false =>
        rw [(hskip hA).1]
        simpa using hP.1
      | true =>
        rw [haud hA]
        have hlen : (s.pageResults ++ [scanPageWithLighthouse world.lighthouse c]).length =
            s.pageResults.length + 1 := by simp
        rw [hlen]
        push_cast
        omega
    · intro e' he' hA'
      rcases List.mem_append.1 he' with he' | he'
      · exact hP.2 e' he' hA'
      · have hee : e' = e := List.mem_singleton.1 he'
        subst hee
        rw [head] at hA'
        rw [her]
        exact of_decide_eq_true hA'
  refine ⟨?_, crawl_visited_eq_audited_log cfg baseURL world cancel fuel r h, ?_⟩
  · rw [hrep, assembleReport_pageResults]
    exact hinv.1
  · rw [hrep, assembleReport_log]
    exact hinv.2

/-- C4 (amended): in every completed run, a dequeued URL of rank below
`offset` is never audited (and contributes no PageOutcome, the PageOutcome
URLs being exactly the audited log entries), and link extraction from it is
attempted exactly when the queue length right after the dequeue is below
`max_pages` — the source gates on the queue length, not on the discovery
count (see the counterexample to the original claim). -/
theorem c4_discovery_only_policy (cfg : ScanConfig) (baseURL : String)
    (world : World) (cancel : Nat → Bool) (fuel : Nat) (r : ScanResult)
    (h : crawlAndScan cfg baseURL world cancel fuel = some r) :
    r.urlsVisited = (r.log.filter (fun e => e.audited)).map (fun e => e.url) ∧
    ∀ e ∈ r.log, e.rank < cfg.offset →
      e.audited = false ∧ (e.extracted = true ↔ (e.queueLen : Int) < cfg.maxPages) := by
  refine ⟨crawl_visited_eq_audited_log cfg baseURL world cancel fuel r h, ?_⟩
  obtain ⟨st, hloop, hrep⟩ := crawlAndScan_elim h
  have hinv : ∀ e ∈ st.log, e.rank < cfg.offset →
      e.audited = false ∧ (e.extracted = true ↔ (e.queueLen : Int) < cfg.maxPages) := by
    refine crawlLoop_inv cfg world cancel
      (fun s => ∀ e ∈ s.log, e.rank < cfg.offset →
        e.audited = false ∧ (e.extracted = true ↔ (e.queueLen : Int) < cfg.maxPages))
      ?_ fuel (initState baseURL) st (by simp [initState]) hloop
    intro s hg hP
    obtain ⟨c, rest, hq⟩ := List.exists_cons_of_ne_nil (List.ne_nil_of_length_pos hg.1)
    obtain ⟨ns, extra, pro, e, heq, _, _, _, _, her, heqn, _, head, hskip, _⟩ :=
      crawlStep_view cfg world cancel s c rest hq
    rw [heq]
    intro e' he' hrank
    rcases List.mem_append.1 he' with he' | he'
    · exact hP e' he' hrank
    · have hee : e' = e := List.mem_singleton.1 he'
      subst hee
      rw [her] at hrank
      have hA : e'.audited = false := by
        rw [head]
        exact decide_eq_false (Int.not_le.2 hrank)
      refine ⟨hA, ?_⟩
      rw [(hskip hA).2, heqn]
      exact decide_eq_true_iff
  rw [hrep, assembleReport_log]
  exact hinv

/-- C4 (counterexample to the original claim): with `max_pages = 1`,
`offset = 1` on `worldAtoB`, the seed "a" is dequeued at rank 0 < offset
while the discovery record already holds 1 = `max_pages` URLs (`discLen` of
the first log entry), yet link extraction is attempted (`extracted = true`,
and it in fact grows the discovery record to ["a", "b"]): extraction is
gated by the queue length, not by the discovery count as claimed. -/
theorem c4_counterexample :
    (crawlAndScan { maxPages := 1, offset := 1, limit := 1 } "a" worldAtoB
        noCancel 4).map (fun r => (r.log, r.urlsDiscovered)) =
      some ([{ url := "a", rank := 0, queueLen := 0, discLen := 1,
               audited := false, extracted := true },
             { url := "b", rank := 1, queueLen := 0, discLen := 2,
               audited := true, extracted := true }], ["a", "b"]) ∧
    ¬ ((1 : Int) < 1) := by
  exact ⟨by decide, by decide⟩

/-- C1 (evaluation at the failing input): with `max_pages = 1` on
`worldAtoBC`, the completed run's discovery record is ["a", "b", "c"]: it
has no duplicates, but its length 3 exceeds `max_pages = 1`, because
`extractLinks` appends to the discovery record without any cap check (the
cap of main.go lines 369/373/389/393 gates only the queue length). -/
theorem c1_failing_input_eval :
    (crawlAndScan { maxPages := 1, offset := 0, limit := 1 } "a" worldAtoBC
        noCancel 3).map (fun r => (r.urlsDiscovered, r.scanConfig.maxPages)) =
      some (["a", "b", "c"], 1) ∧
    (["a", "b", "c"] : List String).Nodup ∧
    ¬ (((["a", "b", "c"] : List String).length : Int) ≤ 1) := by
  exact ⟨by decide, by decide, by decide⟩

/-- C2 (evaluation at the failing input): with a cancellation signal that
has already fired before the run starts (`cancelAlways`), the loop observes
the cancellation at the top of its first iteration and sets the status, but
the Go `break` leaves only the `select`, so the same iteration still
dequeues "a", invokes its audit and appends its PageOutcome: the final
report has status "cancelled" and yet one visited URL. -/
theorem c2_failing_input_eval :
    (crawlAndScan { maxPages := 50, offset := 0, limit := 1 } "a" worldSingle
        cancelAlways 3).map (fun r => (r.urlsVisited, r.status, r.cancelled)) =
      some (["a"], "cancelled", true) := by
  decide

/-! ## Audit invoker lemmas (C7, C8) -/

theorem issuesForAudit_length (auditID : String) (audit : LHAudit) :
    (issuesForAudit auditID audit).length =
      (if audit.scoreDisplayMode = "binary" ∧ audit.score < 1 then
        (if audit.details.items.length = 0 then 1 else audit.details.items.length)
      else 0) := by
  unfold issuesForAudit
  by_cases hb : audit.scoreDisplayMode = "binary" ∧ audit.score < 1
  · rw [if_pos hb, if_pos hb]
    by_cases hi : audit.details.items.length = 0
    · rw [if_pos hi, if_pos hi]
      simp [hi]
    · rw [if_neg hi, if_neg hi]
      simp
  · rw [if_neg hb, if_neg hb]
    rfl

theorem issuesForAudit_auditID (auditID : String) (audit : LHAudit) :
    ∀ i ∈ issuesForAudit auditID audit, i.auditID = auditID := by
  intro i hi
  unfold issuesForAudit at hi
  by_cases hb : audit.scoreDisplayMode = "binary" ∧ audit.score < 1
  · rw [if_pos hb] at hi
    rcases List.mem_append.1 hi with hi | hi
    · rcases List.mem_map.1 hi with ⟨item, _, rfl⟩
      rfl
    · by_cases hz : audit.details.items.length = 0
      · rw [if_pos hz] at hi
        rw [List.mem_singleton.1 hi]
      · rw [if_neg hz] at hi
        cases hi
  · rw [if_neg hb] at hi
    cases hi

theorem filter_issuesForAudit_ne (k auditID : String) (audit : LHAudit)
    (hne : k ≠ auditID) :
    (issuesForAudit k audit).filter (fun i => i.auditID == auditID) = [] := by
  rw [List.filter_eq_nil_iff]
  intro i hi
  rw [issuesForAudit_auditID k audit i hi]
  simp [hne]

theorem filter_issuesForAudit_self (auditID : String) (audit : LHAudit) :
    (issuesForAudit auditID audit).filter (fun i => i.auditID == auditID) =
      issuesForAudit auditID audit := by
  rw [List.filter_eq_self]
  intro i hi
  rw [issuesForAudit_auditID auditID audit i hi]
  simp

theorem buildIssues_filter_not_mem (auditID : String) :
    ∀ audits : List (String × LHAudit), auditID ∉ audits.map Prod.fst →
      (buildIssues audits).filter (fun i => i.auditID == auditID) = []
  | [], _ => rfl
  | (k, a) :: rest, hnm => by
    rw [buildIssues, List.filter_append]
    have hk : k ≠ auditID := by
      intro he
      exact hnm (by simp [he])
    rw [filter_issuesForAudit_ne k auditID a hk,
      buildIssues_filter_not_mem auditID rest (fun hmem => hnm (by simp [hmem]))]
    rfl

theorem issuesForAudit_cases (auditID : String) (audit : LHAudit) :
    issuesForAudit auditID audit =
      (if audit.scoreDisplayMode = "binary" ∧ audit.score < 1 then
        (if audit.details.items = [] then
          [{ auditID := auditID, title := audit.title, description := audit.description,
             impact := "unknown", selector := "", snippet := "" }]
        else
          audit.details.items.map (fun item =>
            { auditID := auditID, title := audit.title, description := audit.description,
              impact := item.impact, selector := item.node.selector,
              snippet := item.node.snippet }))
      else []) := by
  unfold issuesForAudit
  by_cases hb : audit.scoreDisplayMode = "binary" ∧ audit.score < 1
  · rw [if_pos hb, if_pos hb]
    by_cases hi : audit.details.items = []
    · rw [if_pos hi, if_pos (by rw [hi]; rfl), hi]
      rfl
    · rw [if_neg hi, if_neg (fun hz => hi (List.length_eq_zero.1 hz))]
      rw [List.append_nil]
  · rw [if_neg hb, if_neg hb]

/-- C7: for every decoded Lighthouse response whose audit identifiers are
pairwise distinct (as the keys of a Go map are), the issues carrying a given
audit identifier are exactly: for a binary-mode audit entry with score below
1, one issue per located node item built from that item's impact, selector
and snippet — or, when that audit reports zero located items, exactly one
issue with impact "unknown" and empty selector and snippet; and no issue at
all for an audit that passes or whose display mode is not binary. -/
theorem c7_issue_mapping : ∀ audits : List (String × LHAudit),
    (audits.map Prod.fst).Nodup →
    ∀ (auditID : String) (audit : LHAudit), (auditID, audit) ∈ audits →
    (buildIssues audits).filter (fun i => i.auditID == auditID) =
      (if audit.scoreDisplayMode = "binary" ∧ audit.score < 1 then
        (if audit.details.items = [] then
          [{ auditID := auditID, title := audit.title, description := audit.description,
             impact := "unknown", selector := "", snippet := "" }]
        else
          audit.details.items.map (fun item =>
            { auditID := auditID, title := audit.title, description := audit.description,
              impact := item.impact, selector := item.node.selector,
              snippet := item.node.snippet }))
      else [])
  | [], _, auditID, audit, hmem => absurd hmem (List.not_mem_nil _)
  | (k, a) :: rest, hnd, auditID, audit, hmem => by
    rw [buildIssues, List.filter_append]
    have hndr : (rest.map Prod.fst).Nodup := (List.nodup_cons.1 (by simpa using hnd)).2
    have hknr : k ∉ rest.map Prod.fst := (List.nodup_cons.1 (by simpa using hnd)).1
    rcases List.mem_cons.1 hmem with heq | hmem2
    · have h1 : auditID = k := congrArg Prod.fst heq
      have h2 : audit = a := congrArg Prod.snd heq
      subst h1
      subst h2
      rw [filter_issuesForAudit_self,
        buildIssues_filter_not_mem auditID rest hknr,
        List.append_nil]
      exact issuesForAudit_cases auditID audit
    · have hne : k ≠ auditID := by
        intro he
        subst he
        exact hknr (List.mem_map.2 ⟨(k, audit), hmem2, rfl⟩)
      rw [filter_issuesForAudit_ne k auditID a hne]
      rw [List.nil_append]
      exact c7_issue_mapping rest hndr auditID audit hmem2

theorem string_eq_empty_of_length_eq_zero (s : String) (h : s.length = 0) : s = "" := by
  cases s with
  | mk data =>
    cases data with
    | nil => rfl
    | cons c cs => simp [String.length] at h

theorem string_append_ne_empty_left (s t : String) (hs : s ≠ "") : s ++ t ≠ "" := by
  intro h
  have hlen := congrArg String.length h
  rw [String.length_append] at hlen
  have hnil : ("" : String).length = 0 := rfl
  rw [hnil] at hlen
  have hz : s.length = 0 := by omega
  exact hs (string_eq_empty_of_length_eq_zero s hz)

theorem string_append_ne_empty_right (s t : String) (ht : t ≠ "") : s ++ t ≠ "" := by
  intro h
  have hlen := congrArg String.length h
  rw [String.length_append] at hlen
  have hnil : ("" : String).length = 0 := rfl
  rw [hnil] at hlen
  have hz : t.length = 0 := by omega
  exact ht (string_eq_empty_of_length_eq_zero t hz)

/-- C8: every failed audit invocation (transport error, non-200 status, or
undecodable body) yields a PageOutcome for the requested URL with a
non-empty error string, zero score and no issues; the translation is a
total function, so no failure escapes this boundary. -/
theorem c8_failure_outcome (lighthouse : String → LighthouseFetch) (pageURL : String)
    (hfail : (lighthouse pageURL).isFailure = true) :
    (scanPageWithLighthouse lighthouse pageURL).url = pageURL ∧
    (scanPageWithLighthouse lighthouse pageURL).error ≠ "" ∧
    (scanPageWithLighthouse lighthouse pageURL).accessibilityScore = 0 ∧
    (scanPageWithLighthouse lighthouse pageURL).issues = [] := by
  unfold scanPageWithLighthouse
  cases hl : lighthouse pageURL with
  | transportError msg =>
    exact ⟨rfl,
      string_append_ne_empty_left "Failed to call Lighthouse API: " msg (by decide),
      rfl, rfl⟩
  | httpError status body =>
    refine ⟨rfl, ?_, rfl, rfl⟩
    refine string_append_ne_empty_left _ body ?_
    exact string_append_ne_empty_right _ "): " (by decide)
  | decodeError msg =>
    exact ⟨rfl,
      string_append_ne_empty_left "Failed to decode Lighthouse response: " msg (by decide),
      rfl, rfl⟩
  | ok lr =>
    rw [hl] at hfail
    simp [LighthouseFetch.isFailure] at hfail

/-- C9: a request that supplies `max_pages = 0` or `limit = 0` (the decoded
value of an absent field) is not rejected as out of range: the zero is
replaced by the default (50 and 5) before range validation runs, and
validation succeeds exactly when each supplied value is either zero or in
its documented range and the offset is nonnegative — only explicitly
negative or too-large values are rejected. -/
theorem c9_zero_means_default (parseOK : String → Bool) (req : ScanRequest)
    (hurl : req.url ≠ "") (hpk : parseOK req.url = true) :
    (req.maxPages = 0 → req.limit = 0 → 0 ≤ req.offset →
      validateScan parseOK req = .ok { req with maxPages := 50, limit := 5 }) ∧
    ((validateScan parseOK req).isOkB = true ↔
      ((req.maxPages = 0 ∨ (1 ≤ req.maxPages ∧ req.maxPages ≤ 1000)) ∧
       (req.limit = 0 ∨ (1 ≤ req.limit ∧ req.limit ≤ 100)) ∧
       0 ≤ req.offset)) := by
  constructor
  · intro h0 l0 hoff
    have hA : ¬((50 : Int) < 1 ∨ 1000 < (50 : Int)) := by decide
    have hB : ¬((5 : Int) < 1 ∨ 100 < (5 : Int)) := by decide
    have hC : ¬(req.offset < 0) := Int.not_lt.2 hoff
    simp [validateScan, hurl, hpk, h0, l0, hA, hB, hC]
  · by_cases h0 : req.maxPages = 0 <;> by_cases l0 : req.limit = 0 <;>
      simp only [validateScan, if_neg hurl, hpk, not_true, if_false, h0, l0,
        if_true, ite_true, ite_false] <;>
      split_ifs with hA hB hC <;>
      simp [Except.isOkB, h0, l0] <;>
      omega

/-! ## Witnesses -/

theorem c3_witness : ("a" : String) ∈ reportSingle.urlsDiscovered :=
  c3_visited_in_discovered { maxPages := 50, offset := 0, limit := 5 } "a" worldSingle
    noCancel 3 reportSingle (by decide) "a" (by decide)

theorem c4_witness :
    reportSingleSkip.urlsVisited =
      (reportSingleSkip.log.filter (fun e => e.audited)).map (fun e => e.url) ∧
    (stepSkipA.audited = false ∧
      (stepSkipA.extracted = true ↔ (stepSkipA.queueLen : Int) < (50 : Int))) := by
  have h := c4_discovery_only_policy { maxPages := 50, offset := 1, limit := 5 } "a"
    worldSingle noCancel 3 reportSingleSkip (by decide)
  exact ⟨h.1, h.2 stepSkipA (by decide) (by decide)⟩

theorem c5_witness :
    reportSingle.status =
      statusClassifierSpec reportSingle.cancelled reportSingle.pageResults :=
  c5_status_pure_function { maxPages := 50, offset := 0, limit := 5 } "a" worldSingle
    noCancel 3 reportSingle (by decide)

theorem c6_witness :
    (reportSingle.pageResults.length : Int) ≤
      ({ maxPages := 50, offset := 0, limit := 5 } : ScanConfig).limit ∧
    reportSingle.urlsVisited =
      (reportSingle.log.filter (fun e => e.audited)).map (fun e => e.url) := by
  have h := c6_limit_and_offset { maxPages := 50, offset := 0, limit := 5 } "a"
    worldSingle noCancel 3 reportSingle (by decide) (by decide)
  exact ⟨h.1, h.2.1⟩

theorem c10_witness : reportSingle.urlsVisited.Nodup :=
  c10_visited_nodup { maxPages := 50, offset := 0, limit := 5 } "a" worldSingle
    noCancel 3 reportSingle (by decide)

theorem c7_witness :
    (buildIssues [("image-alt", auditNoItems)]).filter
      (fun i => i.auditID == "image-alt") =
    [{ auditID := "image-alt", title := "Image elements have alt attributes",
       description := "desc", impact := "unknown", selector := "", snippet := "" }] := by
  have h := c7_issue_mapping [("image-alt", auditNoItems)] (by decide) "image-alt"
    auditNoItems (by decide)
  rw [h]
  decide

theorem c8_witness :
    (scanPageWithLighthouse lighthouseDown "https://example.com").url =
      "https://example.com" ∧
    (scanPageWithLighthouse lighthouseDown "https://example.com").error ≠ "" ∧
    (scanPageWithLighthouse lighthouseDown "https://example.com").accessibilityScore = 0 ∧
    (scanPageWithLighthouse lighthouseDown "https://example.com").issues = [] :=
  c8_failure_outcome lighthouseDown "https://example.com" (by decide)

theorem c9_witness :
    validateScan parseAll reqZeros =
      .ok { reqZeros with maxPages := 50, limit := 5 } :=
  (c9_zero_means_default parseAll reqZeros (by decide) (by decide)).1 rfl rfl (by decide)
